import Mathlib

unseal Rat.sub Rat.add Rat.mul Rat.inv Rat.ofScientific

/-!
Verification of the scoring, portfolio-construction, backtesting and
weight-tuning core of the `codex` equity-ranking application.

Python floats are modelled as exact rationals (`ℚ`); the one genuinely
real-valued quantity (the CAGR power `(end/start) ** (1/years)` and the
Pearson correlations, which involve square roots) is modelled over `ℝ`.
Python dicts keyed by strings are modelled as insertion-ordered
association lists, matching CPython's dict semantics.
-/

namespace Codex

/-- Embeds `clamp` from `src/app/core/metrics.py`: `max(min_value, min(max_value, value))`.
The Python defaults are `min_value=0, max_value=1`; call sites that use the
defaults pass `0` and `1` explicitly here. -/
def clamp (value min_value max_value : ℚ) : ℚ :=
  max min_value (min max_value value)

/-- Embeds `smooth_step` from `src/app/scoring/utils.py` (keyword arguments
`lower`, `upper` become positional). -/
def smooth_step (value lower upper : ℚ) : ℚ :=
  if upper = lower then clamp (if value ≥ upper then 1 else 0) 0 1
  else if value ≤ lower then 0
  else if value ≥ upper then 1
  else clamp ((value - lower) / (upper - lower)) 0 1

/-- Embeds `inverse_smooth_step` from `src/app/scoring/utils.py`. -/
def inverse_smooth_step (value lower upper : ℚ) : ℚ :=
  if value ≤ lower then 1
  else if value ≥ upper then 0
  else clamp (1 - (value - lower) / (upper - lower)) 0 1

/-- Embeds `weighted_average` from `src/app/scoring/utils.py`.  The Python
function receives two dicts with identical keys; every call site in the
source passes literal dicts, so the embedding takes the corresponding
(value, weight) rows in the source's insertion order. -/
def weighted_average (pairs : List (ℚ × ℚ)) : ℚ :=
  let numerator := (pairs.map fun p => p.1 * p.2).sum
  let denominator := (pairs.map fun p => p.2).sum
  if denominator = 0 then 0 else numerator / denominator

/-- Embeds the `WeightConfig` dataclass of `src/app/core/metrics.py`.  The
field carrier is a type parameter so that the same record shape serves the
rational-valued scoring path and the real-valued weight-tuning path (the
Python class is a single float-valued dataclass used by both). -/
structure WeightConfig (α : Type) where
  growth : α
  quality : α
  catalysts : α
  valuation : α
  risk : α
  deriving DecidableEq

/-- Embeds the Python field defaults `WeightConfig()`:
growth 0.32, quality 0.22, catalysts 0.18, valuation 0.18, risk 0.10. -/
def WeightConfig.default : WeightConfig ℚ :=
  ⟨0.32, 0.22, 0.18, 0.18, 0.10⟩

/-- Embeds `WeightConfig.normalized` (metrics.py lines 103-122): divide each
weight by the total, falling back to five equal weights of `1/5` when the
total is ≤ 0. -/
def WeightConfig.normalized {α : Type} [LinearOrderedField α]
    (w : WeightConfig α) : WeightConfig α :=
  let total := w.growth + w.quality + w.catalysts + w.valuation + w.risk
  if total ≤ 0 then
    let equal_weight : α := 1 / 5
    ⟨equal_weight, equal_weight, equal_weight, equal_weight, equal_weight⟩
  else
    let scale := 1 / total
    ⟨w.growth * scale, w.quality * scale, w.catalysts * scale,
      w.valuation * scale, w.risk * scale⟩

/-- Embeds `WeightConfig.to_dict` (metrics.py lines 124-132): it first
re-normalizes and then returns the five entries; the returned dict is
modelled by the record itself. -/
def WeightConfig.to_dict {α : Type} [LinearOrderedField α]
    (w : WeightConfig α) : WeightConfig α :=
  w.normalized

/-- Embeds the `ScoreBreakdown` dataclass of `src/app/core/metrics.py`. -/
structure ScoreBreakdown where
  ticker : String
  name : String
  growth : ℚ
  quality : ℚ
  catalysts : ℚ
  valuation : ℚ
  risk : ℚ
  weights : Option (WeightConfig ℚ)
  deriving DecidableEq

/-- Embeds the `ScoreBreakdown.composite` property (metrics.py lines 156-167):
`weights = (self.weights or WeightConfig()).normalized().to_dict()`, then the
dot product of the five factor scores with those entries.  A dataclass
instance is always truthy in Python, so `or` only replaces `None`. -/
def ScoreBreakdown.composite (b : ScoreBreakdown) : ℚ :=
  let w := (b.weights.getD WeightConfig.default).normalized.to_dict
  b.growth * w.growth + b.quality * w.quality + b.catalysts * w.catalysts
    + b.valuation * w.valuation + b.risk * w.risk

/-- Embeds the `GrowthMetrics` dataclass of metrics.py. -/
structure GrowthMetrics where
  revenue_cagr_3y : ℚ
  revenue_acceleration : ℚ
  ebit_margin_trend : ℚ
  fcf_margin : ℚ
  backlog_growth : Option ℚ
  deriving DecidableEq

/-- Embeds the `QualityMetrics` dataclass of metrics.py. -/
structure QualityMetrics where
  roic : ℚ
  roic_trend : ℚ
  net_debt_to_ebitda : ℚ
  interest_coverage : ℚ
  asset_turnover_trend : ℚ
  deriving DecidableEq

/-- Embeds the `CatalystMetrics` dataclass of metrics.py. -/
structure CatalystMetrics where
  theme_alignment : ℚ
  earnings_revision_trend : ℚ
  insider_activity_score : ℚ
  strategic_investor_presence : Option ℚ
  deriving DecidableEq

/-- Embeds the `ValuationMetrics` dataclass of metrics.py. -/
structure ValuationMetrics where
  peg_ratio : ℚ
  ev_to_ebitda_vs_peers : ℚ
  free_cash_flow_yield : ℚ
  price_momentum : ℚ
  consolidation_score : ℚ
  deriving DecidableEq

/-- Embeds the `RiskMetrics` dataclass of metrics.py. -/
structure RiskMetrics where
  market_cap : ℚ
  avg_daily_dollar_volume : ℚ
  beta : ℚ
  volatility_3y : ℚ
  drawdown_1y : ℚ
  deriving DecidableEq

/-- Embeds the `CompanyIndicators` dataclass.  The first seven fields are the
ones declared in `src/app/core/metrics.py`.  Modelled from the spec: the
trailing `sector` / `industry` / `metadata` fields — the spec's data model
says "Optional sector/industry/metadata fields travel alongside", and they
are passed as constructor arguments by `src/app/data/sample_data.py` and read
by `src/app/core/portfolio.py`, but the `slots=True` dataclass in metrics.py
does not declare them (so the running code raises; see the theorem for C1).
The metadata dict is modelled as the list of its entries whose values are
optional strings; only its truthiness and its "sector" entry are consumed. -/
structure CompanyIndicators where
  ticker : String
  name : String
  growth : GrowthMetrics
  quality : QualityMetrics
  catalysts : CatalystMetrics
  valuation : ValuationMetrics
  risk : RiskMetrics
  sector : Option String
  industry : Option String
  metadata : Option (List (String × Option String))
  deriving DecidableEq

/-- Embeds `score_growth` from `src/app/scoring/growth.py`; rows are the
components dict paired with the weights dict, in source order.
`metrics.backlog_growth or 0` maps a missing value to `0`. -/
def score_growth (m : GrowthMetrics) : ℚ :=
  clamp (weighted_average
    [(smooth_step m.revenue_cagr_3y 0.08 0.35, 0.32),
     (smooth_step m.revenue_acceleration 0 0.12, 0.22),
     (smooth_step m.ebit_margin_trend 0 0.08, 0.18),
     (smooth_step m.fcf_margin 0.05 0.2, 0.18),
     (smooth_step (m.backlog_growth.getD 0) 0 0.25, 0.10)]) 0 1

/-- Embeds `score_quality` from `src/app/scoring/quality.py`. -/
def score_quality (m : QualityMetrics) : ℚ :=
  clamp (weighted_average
    [(smooth_step m.roic 0.08 0.25, 0.3),
     (smooth_step m.roic_trend 0 0.06, 0.2),
     (inverse_smooth_step m.net_debt_to_ebitda 0 2.5, 0.2),
     (smooth_step m.interest_coverage 4 15, 0.2),
     (smooth_step m.asset_turnover_trend 0 0.15, 0.1)]) 0 1

/-- Embeds `score_catalysts` from `src/app/scoring/catalysts.py`. -/
def score_catalysts (m : CatalystMetrics) : ℚ :=
  clamp (weighted_average
    [(smooth_step m.theme_alignment 0.2 0.9, 0.35),
     (smooth_step m.earnings_revision_trend 0 0.25, 0.3),
     (smooth_step m.insider_activity_score 0 0.7, 0.2),
     (smooth_step (m.strategic_investor_presence.getD 0) 0 0.5, 0.15)]) 0 1

/-- Embeds `score_valuation` from `src/app/scoring/valuation.py`. -/
def score_valuation (m : ValuationMetrics) : ℚ :=
  clamp (weighted_average
    [(inverse_smooth_step m.peg_ratio 0.5 2, 0.25),
     (inverse_smooth_step m.ev_to_ebitda_vs_peers (-2) 3, 0.2),
     (smooth_step m.free_cash_flow_yield 0 0.06, 0.2),
     (smooth_step m.price_momentum 0 0.3, 0.2),
     (smooth_step m.consolidation_score 0.2 0.8, 0.15)]) 0 1

/-- Embeds `score_risk` from `src/app/scoring/risk.py`. -/
def score_risk (m : RiskMetrics) : ℚ :=
  clamp (weighted_average
    [(smooth_step m.market_cap 300000000 10000000000, 0.25),
     (smooth_step m.avg_daily_dollar_volume 5000000 50000000, 0.25),
     (inverse_smooth_step m.beta 0.8 1.6, 0.2),
     (inverse_smooth_step m.volatility_3y 0.2 0.6, 0.2),
     (inverse_smooth_step m.drawdown_1y 0.15 0.45, 0.1)]) 0 1

/-- Embeds `evaluate_company` from `src/app/core/scoring_engine.py`. -/
def evaluate_company (indicators : CompanyIndicators)
    (weight_config : Option (WeightConfig ℚ)) : ScoreBreakdown :=
  { ticker := indicators.ticker
    name := indicators.name
    growth := score_growth indicators.growth
    quality := score_quality indicators.quality
    catalysts := score_catalysts indicators.catalysts
    valuation := score_valuation indicators.valuation
    risk := score_risk indicators.risk
    weights := weight_config }

/-- Embeds `rank_companies` from `src/app/core/scoring_engine.py`:
`sorted(scores, key=lambda item: item.composite, reverse=True)`.  CPython's
`sorted` is a stable sort; with `reverse=True` it orders by descending key
while equal-key items keep their input order, which is exactly a stable merge
sort under the relation "left composite is at least right composite". -/
def rank_companies (indicators : List CompanyIndicators)
    (weight_config : Option (WeightConfig ℚ)) : List ScoreBreakdown :=
  (indicators.map (evaluate_company · weight_config)).mergeSort
    (fun a b => decide (b.composite ≤ a.composite))

/-- Embeds the `PositionSuggestion` dataclass of `src/app/core/portfolio.py`. -/
structure PositionSuggestion where
  ticker : String
  name : String
  weight : ℚ
  composite : ℚ
  notes : List String
  deriving DecidableEq

/-- Embeds the `PortfolioPlan` dataclass of portfolio.py.  The `scenarios`
field (populated by `_simulate_scenarios` from 2000 `numpy` normal draws) is
outside this embedding: it is stochastic machinery no claim refers to. -/
structure PortfolioPlan where
  suggestions : List PositionSuggestion
  expected_return : ℚ
  volatility_proxy : ℚ
  diversification_index : ℚ
  sector_allocations : List (String × ℚ)
  deriving DecidableEq

/-- Embeds `_raw_weight` from portfolio.py lines 39-47. -/
def raw_weight (score : ScoreBreakdown) (indicators : CompanyIndicators) : ℚ :=
  let liquidity_penalty : ℚ := 1
  let liquidity_penalty :=
    if indicators.risk.avg_daily_dollar_volume < 10000000 then liquidity_penalty * 0.7
    else liquidity_penalty
  let liquidity_penalty :=
    if indicators.risk.market_cap < 1000000000 then liquidity_penalty * 0.5
    else liquidity_penalty
  let volatility_penalty := max indicators.risk.volatility_3y 0.15
  max score.composite 0 * liquidity_penalty / volatility_penalty

/-- Embeds the join on line 54 of portfolio.py: pair each score with its
indicator record, silently dropping scores whose ticker is absent. -/
def scored_pairs (scores : List ScoreBreakdown)
    (indicators : List (String × CompanyIndicators)) :
    List (ScoreBreakdown × CompanyIndicators) :=
  scores.filterMap (fun s => (indicators.lookup s.ticker).map (fun d => (s, d)))

/-- Embeds lines 65-71 of portfolio.py: clamp raw weights at 0, and if their
total is ≤ 0 replace them by all-ones over a total of `len(raw_weights)`;
finally divide each by the total. -/
def plan_weights (scored : List (ScoreBreakdown × CompanyIndicators)) : List ℚ :=
  let raw_weights := scored.map (fun p => max (raw_weight p.1 p.2) 0)
  let total := raw_weights.sum
  let pair :=
    if total ≤ 0 then ((raw_weights.length : ℚ), raw_weights.map fun _ => (1 : ℚ))
    else (total, raw_weights)
  pair.2.map (fun w => w / pair.1)

/-- Embeds the advisory-note block of portfolio.py lines 78-84, in source
order: liquidity, drawdown, beta. -/
def position_notes (data : CompanyIndicators) : List String :=
  (if data.risk.avg_daily_dollar_volume < 20000000
    then ["Thin liquidity — size carefully"] else [])
  ++ (if data.risk.drawdown_1y > 0.35 then ["High recent drawdown"] else [])
  ++ (if data.risk.beta > 1.3 then ["Elevated beta vs. market"] else [])

/-- Embeds Python string-truthiness `or` on optional strings: `None` and the
empty string are falsy. -/
def py_or_str (a b : Option String) : Option String :=
  match a with
  | some s => if s = "" then b else some s
  | none => b

/-- Embeds lines 86-88 of portfolio.py over the record with the
spec-modelled sector fields:
`sector_name = data.sector or data.metadata.get("sector") if data.metadata else None`
parses as `(data.sector or data.metadata.get("sector")) if data.metadata else None`,
so an absent or empty metadata dict forces `None` even when `data.sector`
is set; `if not sector_name` then maps `None` or `""` to "Unclassified". -/
def sector_key (data : CompanyIndicators) : String :=
  let sector_name : Option String :=
    match data.metadata with
    | some entries =>
        if entries.isEmpty then none
        else py_or_str data.sector (entries.lookup "sector").join
    | none => none
  match sector_name with
  | some s => if s = "" then "Unclassified" else s
  | none => "Unclassified"

/-- Embeds the Python dict update `totals[k] = totals.get(k, 0) + w` on an
insertion-ordered dict. -/
def bump_sector (m : List (String × ℚ)) (k : String) (w : ℚ) : List (String × ℚ) :=
  match m with
  | [] => [(k, w)]
  | (k0, v0) :: rest =>
      if k0 = k then (k0, v0 + w) :: rest else (k0, v0) :: bump_sector rest k w

/-- Embeds the empty-input early return of portfolio.py lines 55-63. -/
def empty_plan : PortfolioPlan :=
  { suggestions := []
    expected_return := 0
    volatility_proxy := 0
    diversification_index := 0
    sector_allocations := [] }

/-- Embeds `build_portfolio_plan` from portfolio.py over the record carrying
the spec-modelled sector fields (the dataclass in metrics.py omits them and
the function then raises; `build_portfolio_plan_src` models that). -/
def build_portfolio_plan (scores : List ScoreBreakdown)
    (indicators : List (String × CompanyIndicators)) : PortfolioPlan :=
  let scored := scored_pairs scores indicators
  if scored.isEmpty then empty_plan
  else
    let normalized_weights := plan_weights scored
    let pairs := scored.zip normalized_weights
    { suggestions := pairs.map (fun pw =>
        { ticker := pw.1.1.ticker
          name := pw.1.1.name
          weight := pw.2
          composite := pw.1.1.composite
          notes := position_notes pw.1.2 })
      expected_return := (pairs.map (fun pw => pw.2 * (pw.1.1.growth + pw.1.1.catalysts))).sum
      volatility_proxy := (pairs.map (fun pw => pw.2 * pw.1.2.risk.volatility_3y)).sum
      diversification_index := 1 - (normalized_weights.map (fun w => w ^ 2)).sum
      sector_allocations :=
        pairs.foldl (fun m pw => bump_sector m (sector_key pw.1.2) pw.2) [] }

/-- Embeds the behaviour of `build_portfolio_plan` as it actually runs on the
`CompanyIndicators` declared in metrics.py: that dataclass is `slots=True`
with only ticker/name/growth/quality/catalysts/valuation/risk, so on the
first loop iteration line 86 of portfolio.py evaluates `data.metadata` (the
condition of the conditional expression) and raises `AttributeError`.  Empty
joined input returns the empty plan before the loop is reached. -/
def build_portfolio_plan_src (scores : List ScoreBreakdown)
    (indicators : List (String × CompanyIndicators)) :
    Except String PortfolioPlan :=
  let scored := scored_pairs scores indicators
  if scored.isEmpty then .ok empty_plan
  else .error "AttributeError: CompanyIndicators object has no attribute metadata"

/-- Embeds one row of the `candles` list consumed by
`src/app/core/backtesting.py`: a date (as a day count, matching the `.days`
arithmetic on the datetime index) and a closing price. -/
structure Candle where
  date : ℤ
  close : ℚ
  deriving DecidableEq

/-- Embeds the price payload `{"candles": [...]}`; `none` models an absent
key (`payload.get("candles")` returning `None`). -/
structure PricePayload where
  candles : Option (List Candle)
  deriving DecidableEq

/-- Embeds `df.sort_values("date")` in `_prepare_series`.  Only sortedness by
date matters downstream; the embedding uses a merge sort. -/
def sort_candles (cs : List Candle) : List Candle :=
  cs.mergeSort (fun a b => decide (a.date ≤ b.date))

/-- Embeds `_prepare_series` from backtesting.py lines 17-26: raise
`ValueError` when `candles` is absent or empty (`if not candles`), otherwise
the date-sorted series. -/
def prepare_series (p : PricePayload) : Except String (List Candle) :=
  match p.candles with
  | none => .error "ValueError: Price payload missing candles data"
  | some [] => .error "ValueError: Price payload missing candles data"
  | some cs => .ok (sort_candles cs)

/-- Running prefix maximum continuing from an already-seen maximum `m`. -/
def cummax_from (m : ℚ) : List ℚ → List ℚ
  | [] => []
  | x :: xs => max m x :: cummax_from (max m x) xs

/-- Embeds `series.cummax()`: the monotone non-decreasing prefix maximum. -/
def cummax : List ℚ → List ℚ
  | [] => []
  | x :: xs => x :: cummax_from x xs

/-- Embeds `(series / running_max) - 1` from `_calculate_max_drawdown`. -/
def drawdown_list (closes : List ℚ) : List ℚ :=
  (closes.zip (cummax closes)).map (fun p => p.1 / p.2 - 1)

/-- Embeds `_calculate_max_drawdown` from backtesting.py lines 38-43:
0 for an empty series, otherwise the minimum of the drawdown series. -/
def calculate_max_drawdown (series : List Candle) : ℚ :=
  match series with
  | [] => 0
  | c :: rest =>
      let closes := (c :: rest).map Candle.close
      match drawdown_list closes with
      | [] => 0
      | d :: ds => ds.foldl min d

/-- Embeds `_calculate_cagr` from backtesting.py lines 29-35:
`(end/start) ** (1/years) - 1` with `years = max(days/365.25, 1/12)`.
Python float `**` on a positive base is real exponentiation, modelled by
`Real.rpow`. -/
noncomputable def calculate_cagr (series : List Candle) : ℝ :=
  match series with
  | [] => 0
  | c :: rest =>
      let lastc := (c :: rest).getLastD c
      let start_value := c.close
      let end_value := lastc.close
      let years : ℚ := max (((lastc.date - c.date : ℤ) : ℚ) / 365.25) (1 / 12)
      ((end_value / start_value : ℚ) : ℝ) ^ ((1 : ℝ) / (years : ℝ)) - 1

/-- Embeds the `BacktestResult` dataclass of backtesting.py. -/
structure BacktestResult where
  ticker : String
  cumulative_return : ℚ
  cagr : ℝ
  max_drawdown : ℚ

/-- Embeds `run_backtest` from backtesting.py lines 46-51: validation errors
from `_prepare_series` propagate; otherwise cumulative return is
`last/first - 1` (0 when the series has at most one row), plus CAGR and max
drawdown. -/
noncomputable def run_backtest (ticker : String) (p : PricePayload) :
    Except String BacktestResult :=
  (prepare_series p).map (fun series =>
    let closes := series.map Candle.close
    { ticker := ticker
      cumulative_return :=
        if 1 < closes.length then closes.getLastD 0 / closes.headD 0 - 1 else 0
      cagr := calculate_cagr series
      max_drawdown := calculate_max_drawdown series })

/-- Embeds `run_backtests` from backtesting.py lines 54-61: the loop over
payload items appends each successful result and `continue`s on
`ValueError`. -/
noncomputable def run_backtests : List (String × PricePayload) → List BacktestResult
  | [] => []
  | (t, p) :: rest =>
      match run_backtest t p with
      | .ok r => r :: run_backtests rest
      | .error _ => run_backtests rest

/-- Embeds the `WeightOptimization` dataclass of `src/app/core/tuning.py`;
the `factor_correlations` dict has exactly the five factor keys, modelled by
the same labelled record. -/
structure WeightOptimization where
  recommended : WeightConfig ℝ
  factor_correlations : WeightConfig ℝ

/-- Arithmetic mean of a list of reals (0/0 = 0 for the empty list, which is
never consulted). -/
noncomputable def list_mean (xs : List ℝ) : ℝ := xs.sum / xs.length

/-- Centered sum of squares of a list of reals. -/
noncomputable def centered_sq_sum (xs : List ℝ) : ℝ :=
  (xs.map (fun x => (x - list_mean xs) ^ 2)).sum

/-- Centered sum of cross products of two lists of reals. -/
noncomputable def centered_prod_sum (xs ys : List ℝ) : ℝ :=
  ((xs.zip ys).map (fun p => (p.1 - list_mean xs) * (p.2 - list_mean ys))).sum

/-- Embeds `merged[factor].corr(merged["cagr"])` followed by the
`if pd.isna(corr): corr = 0` guard of tuning.py lines 57-59: pandas
Pearson correlation is the centered cross product over the geometric mean of
the centered sums of squares, and is NaN — here 0 — exactly when either
column is constant (including the single-row case). -/
noncomputable def pearson_or_zero (xs ys : List ℝ) : ℝ :=
  if centered_sq_sum xs = 0 ∨ centered_sq_sum ys = 0 then 0
  else centered_prod_sum xs ys /
    (Real.sqrt (centered_sq_sum xs) * Real.sqrt (centered_sq_sum ys))

/-- Embeds the inner merge of `score_df` and `backtest_df` on `ticker`
(tuning.py line 50): left rows in order, each matched against right rows in
order, keeping the factor scores and the joined CAGR. -/
def merged_rows (scores : List ScoreBreakdown) (tests : List BacktestResult) :
    List (ScoreBreakdown × ℝ) :=
  scores.flatMap (fun s =>
    tests.filterMap (fun t => if t.ticker = s.ticker then some (s, t.cagr) else none))

/-- Correlation of one factor column of the merged frame with the CAGR
column. -/
noncomputable def factor_corr (merged : List (ScoreBreakdown × ℝ))
    (f : ScoreBreakdown → ℚ) : ℝ :=
  pearson_or_zero (merged.map (fun r => ((f r.1 : ℚ) : ℝ))) (merged.map (fun r => r.2))

/-- Embeds `recommend_weights` from tuning.py lines 18-71: `None` when either
input list is empty, when the ticker join is empty, or when
`merged["cagr"].abs().sum() == 0`; otherwise the proposal built from
`max(correlation, 0)` per factor, normalized, alongside the raw
correlations. -/
noncomputable def recommend_weights (scores : List ScoreBreakdown)
    (tests : List BacktestResult) : Option WeightOptimization :=
  if scores.isEmpty ∨ tests.isEmpty then none
  else
    let merged := merged_rows scores tests
    if merged.isEmpty ∨ (merged.map (fun r => |r.2|)).sum = 0 then none
    else
      let cg := factor_corr merged ScoreBreakdown.growth
      let cq := factor_corr merged ScoreBreakdown.quality
      let cc := factor_corr merged ScoreBreakdown.catalysts
      let cv := factor_corr merged ScoreBreakdown.valuation
      let cr := factor_corr merged ScoreBreakdown.risk
      some
        { recommended :=
            (WeightConfig.mk (max cg 0) (max cq 0) (max cc 0) (max cv 0)
              (max cr 0)).normalized
          factor_correlations := ⟨cg, cq, cc, cv, cr⟩ }

/-! Concrete fixtures (values taken from the CLS entry of
`src/app/data/sample_data.py`) used by the closed-form theorems below. -/

/-- Fixture score breakdown for ticker CLS. -/
def fixtureScore : ScoreBreakdown :=
  ⟨"CLS", "Celestica Inc.", 1/2, 1/2, 1/2, 1/2, 1/2, none⟩

/-- Fixture indicator record for ticker CLS. -/
def fixtureCompany : CompanyIndicators :=
  { ticker := "CLS"
    name := "Celestica Inc."
    growth := ⟨0.17, 0.05, 0.04, 0.08, some 0.32⟩
    quality := ⟨0.19, 0.05, 1.1, 10, 0.08⟩
    catalysts := ⟨0.85, 0.18, 0.55, some 0.3⟩
    valuation := ⟨0.9, -1.5, 0.05, 0.22, 0.6⟩
    risk := ⟨4200000000, 45000000, 1.1, 0.32, 0.2⟩
    sector := some "Technology"
    industry := some "Electronic Components"
    metadata := some [("sector", some "Technology")] }

/-- Fixture breakdown whose composite is 0 (all factors 0), driving the
equal-weight fallback of the portfolio constructor. -/
def fixtureZeroScore : ScoreBreakdown :=
  ⟨"CLS", "Celestica Inc.", 0, 0, 0, 0, 0, none⟩

/-! Fixtures for the C10 witness: two companies with identical factor scores
(so every Pearson correlation is undefined, hence 0) joined to CAGRs 0
and 1. -/

/-- Fixture score row for ticker A. -/
def fixtureScoreA : ScoreBreakdown := ⟨"A", "Alpha", 1/2, 1/2, 1/2, 1/2, 1/2, none⟩

/-- Fixture score row for ticker B with the same factor values. -/
def fixtureScoreB : ScoreBreakdown := ⟨"B", "Beta", 1/2, 1/2, 1/2, 1/2, 1/2, none⟩

/-- Fixture backtest row for ticker A with CAGR 0. -/
noncomputable def fixtureTestA : BacktestResult := ⟨"A", 0, 0, 0⟩

/-- Fixture backtest row for ticker B with CAGR 1. -/
noncomputable def fixtureTestB : BacktestResult := ⟨"B", 0, 1, 0⟩

/-! Shared lemmas about weight normalization. -/

/-- The five entries of `normalized()` always sum to exactly 1. -/
lemma WeightConfig.normalized_sum {α : Type} [LinearOrderedField α]
    (w : WeightConfig α) :
    w.normalized.growth + w.normalized.quality + w.normalized.catalysts
      + w.normalized.valuation + w.normalized.risk = 1 := by
  by_cases h : w.growth + w.quality + w.catalysts + w.valuation + w.risk ≤ 0
  · simp [WeightConfig.normalized, h]
    norm_num
  · have ht : w.growth + w.quality + w.catalysts + w.valuation + w.risk ≠ 0 :=
      fun h0 => h (le_of_eq h0)
    simp [WeightConfig.normalized, h]
    field_simp

/-- A config whose entries sum to 1 is a fixed point of `normalized()`. -/
lemma WeightConfig.normalized_of_sum_one {α : Type} [LinearOrderedField α]
    (w : WeightConfig α)
    (h : w.growth + w.quality + w.catalysts + w.valuation + w.risk = 1) :
    w.normalized = w := by
  cases w with
  | mk g q c v r =>
    simp only at h
    simp [WeightConfig.normalized, h]

/-- `normalized()` is idempotent. -/
lemma WeightConfig.normalized_idem {α : Type} [LinearOrderedField α]
    (w : WeightConfig α) :
    w.normalized.normalized = w.normalized :=
  WeightConfig.normalized_of_sum_one _ (WeightConfig.normalized_sum w)

/-- Normalization keeps non-negative entries non-negative. -/
lemma WeightConfig.normalized_nonneg {α : Type} [LinearOrderedField α]
    (w : WeightConfig α)
    (h : 0 ≤ w.growth ∧ 0 ≤ w.quality ∧ 0 ≤ w.catalysts ∧ 0 ≤ w.valuation
      ∧ 0 ≤ w.risk) :
    0 ≤ w.normalized.growth ∧ 0 ≤ w.normalized.quality
      ∧ 0 ≤ w.normalized.catalysts ∧ 0 ≤ w.normalized.valuation
      ∧ 0 ≤ w.normalized.risk := by
  obtain ⟨h1, h2, h3, h4, h5⟩ := h
  by_cases ht : w.growth + w.quality + w.catalysts + w.valuation + w.risk ≤ 0
  · simp [WeightConfig.normalized, ht]
  · have hpos : 0 < w.growth + w.quality + w.catalysts + w.valuation + w.risk :=
      lt_of_not_le ht
    have hscale : 0 ≤ (w.growth + w.quality + w.catalysts + w.valuation + w.risk)⁻¹ :=
      le_of_lt (by positivity)
    simp [WeightConfig.normalized, ht]
    exact ⟨mul_nonneg h1 hscale, mul_nonneg h2 hscale, mul_nonneg h3 hscale,
      mul_nonneg h4 hscale, mul_nonneg h5 hscale⟩

/-- C1: the claim says that for every non-empty list of score breakdowns whose
tickers all match indicator records, `build_portfolio_plan` completes without
raising and returns sector allocations.  On the code as written it does not:
`CompanyIndicators` in metrics.py is a `slots=True` dataclass without the
`sector` / `metadata` attributes that portfolio.py line 86 reads, so the
first loop iteration raises `AttributeError`.  This theorem evaluates the
embedded runtime behaviour at a concrete matched input. -/
theorem C1_build_plan_attribute_error :
    build_portfolio_plan_src [fixtureScore] [("CLS", fixtureCompany)]
      = Except.error
          "AttributeError: CompanyIndicators object has no attribute metadata" := by
  rfl

/-- C2 counterexample: at `value = lower = upper = 0` the code returns
`inverse_smooth_step = 1` while `1 - smooth_step = 0`, refuting the claimed
identity in the degenerate case `lower == upper`. -/
theorem C2_counterexample :
    ¬ (inverse_smooth_step 0 0 0 = 1 - smooth_step 0 0 0) := by
  decide

/-- C2 (amended): `inverse_smooth_step(value, lower, upper)` equals
`1 - smooth_step(value, lower, upper)` for all inputs except the single
point `value = lower = upper`, where the two sides are 1 and 0. -/
theorem C2_inverse_smooth_step_complement (value lower upper : ℚ)
    (h : ¬ (lower = upper ∧ value = lower)) :
    inverse_smooth_step value lower upper = 1 - smooth_step value lower upper := by
  by_cases he : upper = lower
  · have hv : value ≠ lower := fun hvl => h ⟨he.symm, hvl⟩
    rcases hv.lt_or_lt with hlt | hgt
    · have h1 : value ≤ lower := le_of_lt hlt
      have h2 : ¬ lower ≤ value := not_le.mpr hlt
      simp [inverse_smooth_step, smooth_step, clamp, he, h1, h2]
    · have h1 : ¬ value ≤ lower := not_le.mpr hgt
      have h2 : lower ≤ value := le_of_lt hgt
      simp [inverse_smooth_step, smooth_step, clamp, he, h1, h2]
  · by_cases h1 : value ≤ lower
    · simp [inverse_smooth_step, smooth_step, clamp, he, h1]
    · by_cases h2 : upper ≤ value
      · simp [inverse_smooth_step, smooth_step, clamp, he, h1, h2]
      · have hl : lower < value := not_le.mp h1
        have hu : value < upper := not_le.mp h2
        have hpos : 0 < upper - lower := by linarith
        have hn0 : 0 < (value - lower) / (upper - lower) :=
          div_pos (by linarith) hpos
        have hn1 : (value - lower) / (upper - lower) < 1 :=
          (div_lt_one hpos).mpr (by linarith)
        simp only [inverse_smooth_step, smooth_step, clamp, he, h1, h2,
          if_false, ge_iff_le, if_neg h2, if_neg h1]
        rw [min_eq_right hn1.le, max_eq_right hn0.le,
          min_eq_right (by linarith : 1 - (value - lower) / (upper - lower) ≤ 1),
          max_eq_right (by linarith : (0:ℚ) ≤ 1 - (value - lower) / (upper - lower))]

/-- C2 witness: the amended identity instantiated at `value = 3/2`,
`lower = 1`, `upper = 2`. -/
theorem C2_witness :
    inverse_smooth_step (3/2) 1 2 = 1 - smooth_step (3/2) 1 2 :=
  C2_inverse_smooth_step_complement (3/2) 1 2 (by norm_num)

/-- C3: `normalized()` returns weights summing to exactly 1 for every input,
and whenever the five input weights sum to ≤ 0 every returned weight is
exactly 1/5. -/
theorem C3_normalized_sum_one_and_fallback (w : WeightConfig ℚ) :
    w.normalized.growth + w.normalized.quality + w.normalized.catalysts
        + w.normalized.valuation + w.normalized.risk = 1
    ∧ (w.growth + w.quality + w.catalysts + w.valuation + w.risk ≤ 0 →
        w.normalized = ⟨1/5, 1/5, 1/5, 1/5, 1/5⟩) := by
  refine ⟨WeightConfig.normalized_sum w, fun h => ?_⟩
  simp [WeightConfig.normalized, h]

/-- C3 witness: the all-zero configuration normalizes to five weights of
exactly 1/5. -/
theorem C3_witness :
    (WeightConfig.mk (0:ℚ) 0 0 0 0).normalized = ⟨1/5, 1/5, 1/5, 1/5, 1/5⟩ :=
  (C3_normalized_sum_one_and_fallback ⟨0, 0, 0, 0, 0⟩).2 (by norm_num)

/-- C4: for factor scores in [0,1] and a non-negative weight configuration
(or the default preset when none is stored), `composite` equals the dot
product of the five factor scores with the normalized weights and lies in
[0,1]. -/
theorem C4_composite_dot_product_and_bounds (b : ScoreBreakdown)
    (hg : 0 ≤ b.growth ∧ b.growth ≤ 1) (hq : 0 ≤ b.quality ∧ b.quality ≤ 1)
    (hc : 0 ≤ b.catalysts ∧ b.catalysts ≤ 1)
    (hv : 0 ≤ b.valuation ∧ b.valuation ≤ 1) (hr : 0 ≤ b.risk ∧ b.risk ≤ 1)
    (hw : ∀ w, b.weights = some w → 0 ≤ w.growth ∧ 0 ≤ w.quality
      ∧ 0 ≤ w.catalysts ∧ 0 ≤ w.valuation ∧ 0 ≤ w.risk) :
    b.composite
        = b.growth * (b.weights.getD WeightConfig.default).normalized.growth
          + b.quality * (b.weights.getD WeightConfig.default).normalized.quality
          + b.catalysts * (b.weights.getD WeightConfig.default).normalized.catalysts
          + b.valuation * (b.weights.getD WeightConfig.default).normalized.valuation
          + b.risk * (b.weights.getD WeightConfig.default).normalized.risk
      ∧ 0 ≤ b.composite ∧ b.composite ≤ 1 := by
  set w0 := b.weights.getD WeightConfig.default with hw0def
  have hw0 : 0 ≤ w0.growth ∧ 0 ≤ w0.quality ∧ 0 ≤ w0.catalysts
      ∧ 0 ≤ w0.valuation ∧ 0 ≤ w0.risk := by
    cases hb : b.weights with
    | none =>
        rw [hw0def, hb]
        constructor
        · norm_num [WeightConfig.default]
        constructor
        · norm_num [WeightConfig.default]
        constructor
        · norm_num [WeightConfig.default]
        constructor
        · norm_num [WeightConfig.default]
        · norm_num [WeightConfig.default]
    | some w =>
        have hnn := hw w hb
        rw [hw0def, hb]
        simpa using hnn
  have hcomp : b.composite
      = b.growth * w0.normalized.growth + b.quality * w0.normalized.quality
        + b.catalysts * w0.normalized.catalysts
        + b.valuation * w0.normalized.valuation + b.risk * w0.normalized.risk := by
    simp only [ScoreBreakdown.composite, WeightConfig.to_dict, ← hw0def,
      WeightConfig.normalized_idem]
  obtain ⟨n1, n2, n3, n4, n5⟩ := WeightConfig.normalized_nonneg w0 hw0
  have hs := WeightConfig.normalized_sum w0
  refine ⟨hcomp, ?_, ?_⟩
  · rw [hcomp]
    exact add_nonneg (add_nonneg (add_nonneg
      (add_nonneg (mul_nonneg hg.1 n1) (mul_nonneg hq.1 n2))
      (mul_nonneg hc.1 n3)) (mul_nonneg hv.1 n4)) (mul_nonneg hr.1 n5)
  · rw [hcomp]
    have e1 : b.growth * w0.normalized.growth ≤ w0.normalized.growth :=
      mul_le_of_le_one_left n1 hg.2
    have e2 : b.quality * w0.normalized.quality ≤ w0.normalized.quality :=
      mul_le_of_le_one_left n2 hq.2
    have e3 : b.catalysts * w0.normalized.catalysts ≤ w0.normalized.catalysts :=
      mul_le_of_le_one_left n3 hc.2
    have e4 : b.valuation * w0.normalized.valuation ≤ w0.normalized.valuation :=
      mul_le_of_le_one_left n4 hv.2
    have e5 : b.risk * w0.normalized.risk ≤ w0.normalized.risk :=
      mul_le_of_le_one_left n5 hr.2
    linarith

/-- C4 witness: the fixture breakdown (all factor scores 1/2, default
weights) has composite in [0,1]. -/
theorem C4_witness : 0 ≤ fixtureScore.composite ∧ fixtureScore.composite ≤ 1 :=
  (C4_composite_dot_product_and_bounds fixtureScore
    (by decide) (by decide) (by decide) (by decide) (by decide)
    (fun w hwe => by simp [fixtureScore] at hwe)).2

/-- Dividing every element of a list by a constant divides its sum. -/
lemma sum_map_div (l : List ℚ) (c : ℚ) :
    (l.map (fun w => w / c)).sum = l.sum / c := by
  induction l with
  | nil => simp
  | cons x xs ih => simp [ih, add_div]

/-- A constant-one list sums to its length. -/
lemma sum_map_one {α : Type} (l : List α) :
    (l.map (fun _ => (1:ℚ))).sum = l.length := by
  induction l with
  | nil => simp
  | cons x xs ih => simp [ih, add_comm]

/-- `_raw_weight` is never negative: both factors of the product are
non-negative and the volatility penalty is at least 0.15. -/
lemma raw_weight_nonneg (s : ScoreBreakdown) (d : CompanyIndicators) :
    0 ≤ raw_weight s d := by
  unfold raw_weight
  have h1 : (0:ℚ) ≤ max s.composite 0 := le_max_right _ _
  have hv : (0:ℚ) < max d.risk.volatility_3y 0.15 :=
    lt_max_of_lt_right (by norm_num)
  split_ifs <;>
    · apply div_nonneg _ hv.le
      positivity

/-- The normalized plan weights have one entry per joined candidate. -/
lemma plan_weights_length (scored : List (ScoreBreakdown × CompanyIndicators)) :
    (plan_weights scored).length = scored.length := by
  unfold plan_weights
  by_cases h : (scored.map (fun p => max (raw_weight p.1 p.2) 0)).sum ≤ 0 <;>
    simp [h]

/-- When the clamped raw-weight total is ≤ 0 every plan weight is the equal
weight `1 / n`. -/
lemma plan_weights_of_total_nonpos
    (scored : List (ScoreBreakdown × CompanyIndicators))
    (h : (scored.map (fun p => max (raw_weight p.1 p.2) 0)).sum ≤ 0) :
    plan_weights scored = scored.map (fun _ => 1 / (scored.length : ℚ)) := by
  simp only [plan_weights]
  rw [if_pos h]
  simp [List.map_map, Function.comp_def]

/-- The normalized plan weights of a non-empty joined list sum to exactly 1. -/
lemma plan_weights_sum (scored : List (ScoreBreakdown × CompanyIndicators))
    (h : scored ≠ []) : (plan_weights scored).sum = 1 := by
  have hlen : scored.length ≠ 0 := fun h0 => h (List.length_eq_zero.mp h0)
  have hlenq : ((scored.length : ℚ)) ≠ 0 := Nat.cast_ne_zero.mpr hlen
  by_cases htot : (scored.map (fun p => max (raw_weight p.1 p.2) 0)).sum ≤ 0
  · rw [plan_weights_of_total_nonpos scored htot]
    have hsplit : scored.map (fun _ => 1 / (scored.length : ℚ))
        = (scored.map (fun _ => (1:ℚ))).map (fun w => w / (scored.length : ℚ)) := by
      simp [List.map_map, Function.comp_def]
    rw [hsplit, sum_map_div, sum_map_one]
    exact div_self hlenq
  · simp only [plan_weights]
    rw [if_neg htot]
    rw [sum_map_div]
    exact div_self (fun h0 => htot (le_of_eq h0))

/-- C5: for every non-empty joined input the position weights of the plan
returned by `build_portfolio_plan` sum to exactly 1, and whenever the total
raw weight is ≤ 0 every candidate receives the equal weight `1 / n`. -/
theorem C5_plan_weights_sum_one (scores : List ScoreBreakdown)
    (indicators : List (String × CompanyIndicators))
    (h : scored_pairs scores indicators ≠ []) :
    ((build_portfolio_plan scores indicators).suggestions.map
        PositionSuggestion.weight).sum = 1
    ∧ (((scored_pairs scores indicators).map (fun p => raw_weight p.1 p.2)).sum ≤ 0 →
        ∀ s ∈ (build_portfolio_plan scores indicators).suggestions,
          s.weight = 1 / ((scored_pairs scores indicators).length : ℚ)) := by
  set scored := scored_pairs scores indicators with hsc
  have hne : scored.isEmpty = false := by
    cases hval : scored with
    | nil => exact absurd hval h
    | cons a l => simp
  have hlen : (plan_weights scored).length = scored.length :=
    plan_weights_length scored
  have hmap : ((build_portfolio_plan scores indicators).suggestions.map
      PositionSuggestion.weight) = plan_weights scored := by
    simp only [build_portfolio_plan, ← hsc, hne, Bool.false_eq_true, if_false,
      List.map_map]
    exact List.map_snd_zip scored (plan_weights scored) (le_of_eq hlen)
  constructor
  · rw [hmap]
    exact plan_weights_sum scored h
  · intro htot s hs
    have htot' : (scored.map (fun p => max (raw_weight p.1 p.2) 0)).sum ≤ 0 := by
      have hev : scored.map (fun p => max (raw_weight p.1 p.2) 0)
          = scored.map (fun p => raw_weight p.1 p.2) := by
        apply List.map_congr_left
        intro p _
        exact max_eq_left (raw_weight_nonneg p.1 p.2)
      rw [hev]
      exact htot
    have hplan := plan_weights_of_total_nonpos scored htot'
    simp only [build_portfolio_plan, ← hsc, hne, Bool.false_eq_true, if_false,
      List.mem_map] at hs
    obtain ⟨pw, hpwmem, hpweq⟩ := hs
    have hw2 : pw.2 ∈ plan_weights scored := (List.of_mem_zip hpwmem).2
    rw [hplan] at hw2
    obtain ⟨q, _, hq⟩ := List.mem_map.mp hw2
    rw [← hpweq]
    exact hq.symm

/-- C5 witness: a single zero-composite candidate triggers the equal-weight
fallback and the plan weight sums to 1. -/
theorem C5_witness :
    ((build_portfolio_plan [fixtureZeroScore]
        [("CLS", fixtureCompany)]).suggestions.map
      PositionSuggestion.weight).sum = 1 :=
  (C5_plan_weights_sum_one [fixtureZeroScore] [("CLS", fixtureCompany)]
    (by decide)).1

/-- C6: `rank_companies` returns exactly the evaluations of the inputs (a
permutation of the mapped list), sorted so that every earlier composite is at
least every later one, and any two evaluations with equal composites keep
their input order (stability). -/
theorem C6_rank_sorted_stable (inds : List CompanyIndicators)
    (wc : Option (WeightConfig ℚ)) :
    (rank_companies inds wc).Perm (inds.map (evaluate_company · wc))
    ∧ (rank_companies inds wc).Pairwise
        (fun a b => b.composite ≤ a.composite)
    ∧ ∀ a b : ScoreBreakdown,
        [a, b].Sublist (inds.map (evaluate_company · wc)) →
        a.composite = b.composite →
        [a, b].Sublist (rank_companies inds wc) := by
  have htrans : ∀ a b c : ScoreBreakdown,
      decide (b.composite ≤ a.composite) = true →
      decide (c.composite ≤ b.composite) = true →
      decide (c.composite ≤ a.composite) = true := by
    intro a b c hab hbc
    simp only [decide_eq_true_eq] at *
    exact le_trans hbc hab
  have htotal : ∀ a b : ScoreBreakdown,
      (decide (b.composite ≤ a.composite)
        || decide (a.composite ≤ b.composite)) = true := by
    intro a b
    simp only [Bool.or_eq_true, decide_eq_true_eq]
    exact le_total _ _
  refine ⟨List.mergeSort_perm _ _, ?_, ?_⟩
  · have hs := List.sorted_mergeSort htrans htotal
      (inds.map (evaluate_company · wc))
    exact hs.imp (fun hle => of_decide_eq_true hle)
  · intro a b hab heq
    have hle : decide (b.composite ≤ a.composite) = true := by
      simp [heq]
    exact List.pair_sublist_mergeSort htrans htotal hle hab

/-- C6 witness: two identical companies evaluate to equal composites and the
pair keeps its input order in the ranked output. -/
theorem C6_witness :
    [evaluate_company fixtureCompany none,
      evaluate_company fixtureCompany none].Sublist
      (rank_companies [fixtureCompany, fixtureCompany] none) :=
  (C6_rank_sorted_stable [fixtureCompany, fixtureCompany] none).2.2 _ _
    (List.Sublist.refl _) rfl

/-- C7: the single-ticker `run_backtest` fails with the `ValueError` when the
candles list is absent or empty, and the batch `run_backtests` silently
skips every failing payload, returning the results of exactly the remaining
ones in order. -/
theorem C7_backtest_validation :
    (∀ (t : String) (p : PricePayload),
        (p.candles = none ∨ p.candles = some []) →
        ∃ msg, run_backtest t p = Except.error msg)
    ∧ ∀ payloads : List (String × PricePayload),
        run_backtests payloads
          = payloads.filterMap (fun pr => (run_backtest pr.1 pr.2).toOption) := by
  constructor
  · intro t p hp
    refine ⟨"ValueError: Price payload missing candles data", ?_⟩
    rcases hp with hp | hp <;>
      simp [run_backtest, prepare_series, hp, Except.map]
  · intro payloads
    induction payloads with
    | nil => simp [run_backtests]
    | cons pr rest ih =>
        cases pr with
        | mk t p =>
            cases hrb : run_backtest t p with
            | ok r => simp [run_backtests, hrb, ih, Except.toOption]
            | error e => simp [run_backtests, hrb, ih, Except.toOption]

/-- C7 witness: a payload with no candles key makes the single-ticker
backtest fail. -/
theorem C7_witness :
    ∃ msg, run_backtest "CLS" ⟨none⟩ = Except.error msg :=
  C7_backtest_validation.1 "CLS" ⟨none⟩ (Or.inl rfl)

/-- A left fold by `min` is a lower bound of the start and of every list
element. -/
lemma foldl_min_le (ds : List ℚ) :
    ∀ d : ℚ, ∀ x ∈ d :: ds, ds.foldl min d ≤ x := by
  induction ds with
  | nil =>
      intro d x hx
      rcases List.mem_cons.mp hx with rfl | hx'
      · exact le_refl x
      · exact absurd hx' (List.not_mem_nil x)
  | cons e es ih =>
      intro d x hx
      simp only [List.foldl_cons]
      rcases List.mem_cons.mp hx with rfl | hx'
      · exact le_trans (ih _ _ (List.mem_cons_self _ _)) (min_le_left _ _)
      · rcases List.mem_cons.mp hx' with rfl | hx''
        · exact le_trans (ih _ _ (List.mem_cons_self _ _)) (min_le_right _ _)
        · exact ih _ x (List.mem_cons_of_mem _ hx'')

/-- A left fold by `min` returns the start or one of the list elements. -/
lemma foldl_min_mem (ds : List ℚ) : ∀ d : ℚ, ds.foldl min d ∈ d :: ds := by
  induction ds with
  | nil => intro d; simp
  | cons e es ih =>
      intro d
      simp only [List.foldl_cons]
      rcases List.mem_cons.mp (ih (min d e)) with h | h
      · rcases min_choice d e with hm | hm
        · rw [h, hm]; exact List.mem_cons_self _ _
        · rw [h, hm]; exact List.mem_cons_of_mem _ (List.mem_cons_self _ _)
      · exact List.mem_cons_of_mem _ (List.mem_cons_of_mem _ h)

/-- Continuing the running maximum along a chain of non-decreasing values
reproduces the values. -/
lemma cummax_from_of_chain (m : ℚ) (xs : List ℚ)
    (h : List.Chain (· ≤ ·) m xs) : cummax_from m xs = xs := by
  induction xs generalizing m with
  | nil => simp [cummax_from]
  | cons y ys ih =>
      obtain ⟨hmy, hch⟩ := List.chain_cons.mp h
      simp [cummax_from, max_eq_right hmy, ih y hch]

/-- The running maximum of a non-decreasing list is the list itself. -/
lemma cummax_of_chain' (l : List ℚ) (h : List.Chain' (· ≤ ·) l) :
    cummax l = l := by
  cases l with
  | nil => simp [cummax]
  | cons x xs => simp [cummax, cummax_from_of_chain x xs h]

/-- Zipping a list with itself and taking the drawdown ratio acts
pointwise. -/
lemma zip_self_map (l : List ℚ) :
    (l.zip l).map (fun q => q.1 / q.2 - 1) = l.map (fun x => x / x - 1) := by
  induction l with
  | nil => simp
  | cons x xs ih => simp [ih]

/-- A constant list is pairwise non-decreasing. -/
lemma pairwise_le_of_all_eq (l : List ℚ) (c : ℚ) (h : ∀ x ∈ l, x = c) :
    l.Pairwise (· ≤ ·) := by
  induction l with
  | nil => exact List.Pairwise.nil
  | cons x xs ih =>
      refine List.Pairwise.cons ?_ (ih (fun y hy => h y (List.mem_cons_of_mem _ hy)))
      intro y hy
      rw [h x (List.mem_cons_self _ _), h y (List.mem_cons_of_mem _ hy)]

/-- The head of a non-empty constant list is the constant. -/
lemma headD_of_all_eq (l : List ℚ) (c d : ℚ) (h : ∀ x ∈ l, x = c)
    (hne : l ≠ []) : l.headD d = c := by
  cases l with
  | nil => exact absurd rfl hne
  | cons x xs => exact h x (List.mem_cons_self _ _)

/-- The last element of a non-empty constant list is the constant. -/
lemma getLastD_of_all_eq (l : List ℚ) (c : ℚ) (h : ∀ x ∈ l, x = c)
    (hne : l ≠ []) : ∀ d, l.getLastD d = c := by
  intro d
  obtain ⟨a, ha⟩ : ∃ a, l.getLast? = some a := by
    cases hl : l.getLast? with
    | some a => exact ⟨a, rfl⟩
    | none => exact absurd (List.getLast?_eq_none_iff.mp hl) hne
  rw [List.getLastD_eq_getLast?, ha, Option.getD_some]
  exact h a (List.mem_of_getLast?_eq_some ha)

/-- `_calculate_max_drawdown` of a non-empty series is a member of the
drawdown series and a lower bound of it: the minimum. -/
lemma calculate_max_drawdown_spec (series : List Candle) (hne : series ≠ []) :
    calculate_max_drawdown series ∈ drawdown_list (series.map Candle.close)
    ∧ ∀ d ∈ drawdown_list (series.map Candle.close),
        calculate_max_drawdown series ≤ d := by
  obtain ⟨s0, srest, rfl⟩ := List.exists_cons_of_ne_nil hne
  have hdd : drawdown_list ((s0 :: srest).map Candle.close)
      = (s0.close / s0.close - 1)
        :: ((srest.map Candle.close).zip
              (cummax_from s0.close (srest.map Candle.close))).map
            (fun q => q.1 / q.2 - 1) := by
    simp [drawdown_list, cummax]
  have hcalc : calculate_max_drawdown (s0 :: srest)
      = (((srest.map Candle.close).zip
            (cummax_from s0.close (srest.map Candle.close))).map
          (fun q => q.1 / q.2 - 1)).foldl min (s0.close / s0.close - 1) := by
    simp only [calculate_max_drawdown, hdd]
  rw [hcalc, hdd]
  exact ⟨foldl_min_mem _ _, foldl_min_le _ _⟩

/-- C8: for every valid payload the backtest succeeds; its max drawdown is
the minimum of `(price / running_max) - 1` over the date-sorted close series
(stated as: a member of that drawdown series and a lower bound of it); a
flat positive series yields cumulative return 0, CAGR 0 and max drawdown 0;
and a monotonically rising positive series yields max drawdown 0. -/
theorem C8_max_drawdown_minimum_and_cases (t : String) (p : PricePayload)
    (cs : List Candle) (h1 : p.candles = some cs) (h2 : cs ≠ []) :
    ∃ r, run_backtest t p = Except.ok r
      ∧ r.max_drawdown ∈ drawdown_list ((sort_candles cs).map Candle.close)
      ∧ (∀ d ∈ drawdown_list ((sort_candles cs).map Candle.close),
          r.max_drawdown ≤ d)
      ∧ ((∃ c, 0 < c ∧ ∀ x ∈ cs, x.close = c) →
          r.cumulative_return = 0 ∧ r.cagr = 0 ∧ r.max_drawdown = 0)
      ∧ ((((sort_candles cs).map Candle.close).Pairwise (· ≤ ·)
            ∧ (∀ x ∈ cs, 0 < x.close)) →
          r.max_drawdown = 0) := by
  obtain ⟨a, l, rfl⟩ := List.exists_cons_of_ne_nil h2
  have hprep : prepare_series p = Except.ok (sort_candles (a :: l)) := by
    simp [prepare_series, h1]
  have hserperm : (sort_candles (a :: l)).Perm (a :: l) :=
    List.mergeSort_perm _ _
  have hserne : sort_candles (a :: l) ≠ [] := by
    intro h0
    have := hserperm.length_eq
    rw [h0] at this
    simp at this
  have hclosesne : (sort_candles (a :: l)).map Candle.close ≠ [] := by
    simp [hserne]
  have hrun : run_backtest t p = Except.ok
      { ticker := t
        cumulative_return :=
          if 1 < ((sort_candles (a :: l)).map Candle.close).length
          then ((sort_candles (a :: l)).map Candle.close).getLastD 0
            / ((sort_candles (a :: l)).map Candle.close).headD 0 - 1
          else 0
        cagr := calculate_cagr (sort_candles (a :: l))
        max_drawdown := calculate_max_drawdown (sort_candles (a :: l)) } := by
    simp [run_backtest, hprep, Except.map]
  have hspec := calculate_max_drawdown_spec (sort_candles (a :: l)) hserne
  -- the rising case, also reused for the flat case
  have hrising : (((sort_candles (a :: l)).map Candle.close).Pairwise (· ≤ ·)
        ∧ (∀ x ∈ a :: l, 0 < x.close)) →
      calculate_max_drawdown (sort_candles (a :: l)) = 0 := by
    rintro ⟨hpw, hpos⟩
    have hchain : List.Chain' (· ≤ ·) ((sort_candles (a :: l)).map Candle.close) :=
      List.chain'_iff_pairwise.mpr hpw
    have hcm := cummax_of_chain' _ hchain
    have hdd : drawdown_list ((sort_candles (a :: l)).map Candle.close)
        = ((sort_candles (a :: l)).map Candle.close).map (fun x => x / x - 1) := by
      unfold drawdown_list
      rw [hcm, zip_self_map]
    have hzero : ∀ d ∈ drawdown_list ((sort_candles (a :: l)).map Candle.close),
        d = 0 := by
      rw [hdd]
      intro d hd
      obtain ⟨x, hx, rfl⟩ := List.mem_map.mp hd
      obtain ⟨y, hy, rfl⟩ := List.mem_map.mp hx
      have hypos : 0 < y.close := hpos y (hserperm.mem_iff.mp hy)
      rw [div_self hypos.ne']
      ring
    exact hzero _ hspec.1
  refine ⟨_, hrun, hspec.1, hspec.2, ?_, hrising⟩
  rintro ⟨c, hc, hall⟩
  have hallser : ∀ x ∈ sort_candles (a :: l), x.close = c :=
    fun x hx => hall x (hserperm.mem_iff.mp hx)
  have hallcl : ∀ x ∈ (sort_candles (a :: l)).map Candle.close, x = c := by
    intro x hx
    obtain ⟨y, hy, rfl⟩ := List.mem_map.mp hx
    exact hallser y hy
  refine ⟨?_, ?_, ?_⟩
  · simp only
    split_ifs with hl
    · rw [getLastD_of_all_eq _ c hallcl hclosesne,
        headD_of_all_eq _ c _ hallcl hclosesne, div_self hc.ne']
      ring
    · rfl
  · obtain ⟨s0, srest, hser⟩ := List.exists_cons_of_ne_nil hserne
    have h0 : s0.close = c := hallser s0 (by rw [hser]; exact List.mem_cons_self _ _)
    have hlast : ((s0 :: srest).getLastD s0).close = c := by
      rw [List.getLastD_cons]
      rcases List.mem_cons.mp (List.getLastD_mem_cons srest s0) with hm | hm
      · rw [hm, h0]
      · exact hallser _ (by rw [hser]; exact List.mem_cons_of_mem _ hm)
    simp only [hser, calculate_cagr, hlast, h0, div_self hc.ne']
    push_cast
    rw [Real.one_rpow]
    ring
  · exact hrising ⟨pairwise_le_of_all_eq _ c hallcl,
      fun x hx => by rw [hall x hx]; exact hc⟩

/-- C8 witness: a flat two-candle series at price 5 backtests to cumulative
return 0, CAGR 0 and max drawdown 0. -/
theorem C8_witness :
    ∃ r, run_backtest "CLS" ⟨some [⟨0, 5⟩, ⟨1, 5⟩]⟩ = Except.ok r
      ∧ r.cumulative_return = 0 ∧ r.cagr = 0 ∧ r.max_drawdown = 0 := by
  obtain ⟨r, hrun, _, _, hflat, _⟩ :=
    C8_max_drawdown_minimum_and_cases "CLS" ⟨some [⟨0, 5⟩, ⟨1, 5⟩]⟩
      [⟨0, 5⟩, ⟨1, 5⟩] rfl (by simp)
  exact ⟨r, hrun, hflat ⟨5, by norm_num, by decide⟩⟩

/-- The sum of absolute CAGR values over the merged frame vanishes exactly
when every joined CAGR is zero. -/
lemma abs_sum_eq_zero_iff (l : List (ScoreBreakdown × ℝ)) :
    (l.map (fun r => |r.2|)).sum = 0 ↔ ∀ r ∈ l, r.2 = 0 := by
  induction l with
  | nil => simp
  | cons x xs ih =>
      simp only [List.map_cons, List.sum_cons]
      constructor
      · intro h
        have hs : 0 ≤ (xs.map (fun r => |r.2|)).sum := by
          apply List.sum_nonneg
          intro y hy
          obtain ⟨r, _, rfl⟩ := List.mem_map.mp hy
          exact abs_nonneg _
        have hx0 : |x.2| = 0 := by
          have := abs_nonneg x.2
          linarith
        have hxs0 : (xs.map (fun r => |r.2|)).sum = 0 := by
          have := abs_nonneg x.2
          linarith
        intro r hr
        rcases List.mem_cons.mp hr with rfl | hr'
        · exact abs_eq_zero.mp hx0
        · exact ih.mp hxs0 r hr'
      · intro h
        have hx : x.2 = 0 := h x (List.mem_cons_self _ _)
        have hxs : ∀ r ∈ xs, r.2 = 0 := fun r hr => h r (List.mem_cons_of_mem _ hr)
        simp [hx, ih.mpr hxs]

/-- C9: `recommend_weights` returns no recommendation exactly when the scores
list is empty, the backtests list is empty, the ticker join is empty, or all
joined CAGR values are zero; otherwise the proposal is the normalization of
the five `max(correlation, 0)` weights (undefined correlations already read
as 0 inside `factor_corr`), so the recommended weights are never negative. -/
theorem C9_recommend_weights_none_iff (scores : List ScoreBreakdown)
    (tests : List BacktestResult) :
    (recommend_weights scores tests = none ↔
      scores = [] ∨ tests = [] ∨ merged_rows scores tests = []
        ∨ ∀ r ∈ merged_rows scores tests, r.2 = 0)
    ∧ ∀ opt, recommend_weights scores tests = some opt →
        opt.recommended
          = (WeightConfig.mk
              (max (factor_corr (merged_rows scores tests) ScoreBreakdown.growth) 0)
              (max (factor_corr (merged_rows scores tests) ScoreBreakdown.quality) 0)
              (max (factor_corr (merged_rows scores tests) ScoreBreakdown.catalysts) 0)
              (max (factor_corr (merged_rows scores tests) ScoreBreakdown.valuation) 0)
              (max (factor_corr (merged_rows scores tests) ScoreBreakdown.risk) 0)).normalized
        ∧ 0 ≤ opt.recommended.growth ∧ 0 ≤ opt.recommended.quality
        ∧ 0 ≤ opt.recommended.catalysts ∧ 0 ≤ opt.recommended.valuation
        ∧ 0 ≤ opt.recommended.risk := by
  constructor
  · constructor
    · intro hnone
      simp only [recommend_weights] at hnone
      by_cases hA : scores.isEmpty ∨ tests.isEmpty
      · rcases hA with h | h
        · exact Or.inl (List.isEmpty_iff.mp h)
        · exact Or.inr (Or.inl (List.isEmpty_iff.mp h))
      · rw [if_neg hA] at hnone
        by_cases hB : (merged_rows scores tests).isEmpty
            ∨ ((merged_rows scores tests).map (fun r => |r.2|)).sum = 0
        · rcases hB with h | h
          · exact Or.inr (Or.inr (Or.inl (List.isEmpty_iff.mp h)))
          · exact Or.inr (Or.inr (Or.inr ((abs_sum_eq_zero_iff _).mp h)))
        · rw [if_neg hB] at hnone
          exact absurd hnone (by simp)
    · intro hcases
      rcases hcases with h | h | h | h
      · simp [recommend_weights, h]
      · simp [recommend_weights, h]
      · simp [recommend_weights, h]
      · have habs : ((merged_rows scores tests).map (fun r => |r.2|)).sum = 0 :=
          (abs_sum_eq_zero_iff _).mpr h
        simp [recommend_weights, habs]
  · intro opt hopt
    simp only [recommend_weights] at hopt
    by_cases hA : scores.isEmpty ∨ tests.isEmpty
    · rw [if_pos hA] at hopt
      exact absurd hopt (by simp)
    · rw [if_neg hA] at hopt
      by_cases hB : (merged_rows scores tests).isEmpty
          ∨ ((merged_rows scores tests).map (fun r => |r.2|)).sum = 0
      · rw [if_pos hB] at hopt
        exact absurd hopt (by simp)
      · rw [if_neg hB] at hopt
        have hval := (Option.some.injEq _ _).mp hopt
        subst hval
        refine ⟨rfl, ?_⟩
        exact WeightConfig.normalized_nonneg _
          ⟨le_max_right _ _, le_max_right _ _, le_max_right _ _,
            le_max_right _ _, le_max_right _ _⟩

/-- C9 witness: both input lists empty produces no recommendation. -/
theorem C9_witness : recommend_weights [] [] = none :=
  (C9_recommend_weights_none_iff [] []).1.mpr (Or.inl rfl)

/-- C10: with non-empty inputs, a non-empty join, some nonzero CAGR and every
factor correlation ≤ 0 (or undefined, read as 0), `recommend_weights` still
returns a recommendation, and the equal-weight normalization fallback makes
every recommended weight exactly 1/5. -/
theorem C10_equal_weight_fallback (scores : List ScoreBreakdown)
    (tests : List BacktestResult)
    (h1 : scores ≠ []) (h2 : tests ≠ [])
    (h3 : merged_rows scores tests ≠ [])
    (h4 : ∃ r ∈ merged_rows scores tests, r.2 ≠ 0)
    (hg : factor_corr (merged_rows scores tests) ScoreBreakdown.growth ≤ 0)
    (hq : factor_corr (merged_rows scores tests) ScoreBreakdown.quality ≤ 0)
    (hc : factor_corr (merged_rows scores tests) ScoreBreakdown.catalysts ≤ 0)
    (hv : factor_corr (merged_rows scores tests) ScoreBreakdown.valuation ≤ 0)
    (hr : factor_corr (merged_rows scores tests) ScoreBreakdown.risk ≤ 0) :
    ∃ opt, recommend_weights scores tests = some opt
      ∧ opt.recommended = ⟨1/5, 1/5, 1/5, 1/5, 1/5⟩ := by
  have hne1 : ¬ (scores.isEmpty ∨ tests.isEmpty) := by
    simp [List.isEmpty_iff, h1, h2]
  have habs : ((merged_rows scores tests).map (fun r => |r.2|)).sum ≠ 0 := by
    intro h0
    obtain ⟨r, hrm, hrne⟩ := h4
    exact hrne ((abs_sum_eq_zero_iff _).mp h0 r hrm)
  have hne2 : ¬ ((merged_rows scores tests).isEmpty
      ∨ ((merged_rows scores tests).map (fun r => |r.2|)).sum = 0) := by
    simp [List.isEmpty_iff, h3, habs]
  have hrw : recommend_weights scores tests = some
      { recommended := (WeightConfig.mk
          (max (factor_corr (merged_rows scores tests) ScoreBreakdown.growth) 0)
          (max (factor_corr (merged_rows scores tests) ScoreBreakdown.quality) 0)
          (max (factor_corr (merged_rows scores tests) ScoreBreakdown.catalysts) 0)
          (max (factor_corr (merged_rows scores tests) ScoreBreakdown.valuation) 0)
          (max (factor_corr (merged_rows scores tests) ScoreBreakdown.risk) 0)).normalized
        factor_correlations :=
          ⟨factor_corr (merged_rows scores tests) ScoreBreakdown.growth,
            factor_corr (merged_rows scores tests) ScoreBreakdown.quality,
            factor_corr (merged_rows scores tests) ScoreBreakdown.catalysts,
            factor_corr (merged_rows scores tests) ScoreBreakdown.valuation,
            factor_corr (merged_rows scores tests) ScoreBreakdown.risk⟩ } := by
    simp only [recommend_weights]
    rw [if_neg hne1, if_neg hne2]
  refine ⟨_, hrw, ?_⟩
  show (WeightConfig.mk _ _ _ _ _).normalized = _
  rw [max_eq_right hg, max_eq_right hq, max_eq_right hc, max_eq_right hv,
    max_eq_right hr]
  simp [WeightConfig.normalized]

/-- The centered sum of squares of a two-element constant column is 0. -/
lemma centered_sq_sum_pair (x : ℝ) : centered_sq_sum [x, x] = 0 := by
  have hm : list_mean [x, x] = x := by
    simp [list_mean]
  simp [centered_sq_sum, hm]

/-- The merged frame of the C10 fixtures. -/
lemma fixture_merged :
    merged_rows [fixtureScoreA, fixtureScoreB] [fixtureTestA, fixtureTestB]
      = [(fixtureScoreA, fixtureTestA.cagr), (fixtureScoreB, fixtureTestB.cagr)] := by
  simp [merged_rows, fixtureScoreA, fixtureScoreB, fixtureTestA, fixtureTestB]

/-- Every factor correlation of the C10 fixtures is the undefined-corr
fallback 0, because the factor column is constant. -/
lemma fixture_factor_corr_zero (f : ScoreBreakdown → ℚ)
    (hf : f fixtureScoreA = f fixtureScoreB) :
    factor_corr (merged_rows [fixtureScoreA, fixtureScoreB]
      [fixtureTestA, fixtureTestB]) f = 0 := by
  rw [fixture_merged]
  unfold factor_corr pearson_or_zero
  rw [if_pos]
  left
  simp only [List.map_cons, List.map_nil, hf]
  exact centered_sq_sum_pair _

/-- C10 witness: the fixture inputs (identical factor columns, CAGRs 0 and 1)
produce a recommendation with all weights exactly 1/5. -/
theorem C10_witness :
    ∃ opt, recommend_weights [fixtureScoreA, fixtureScoreB]
        [fixtureTestA, fixtureTestB] = some opt
      ∧ opt.recommended = ⟨1/5, 1/5, 1/5, 1/5, 1/5⟩ :=
  C10_equal_weight_fallback _ _ (by simp) (by simp)
    (by rw [fixture_merged]; simp)
    ⟨(fixtureScoreB, fixtureTestB.cagr), by rw [fixture_merged]; simp,
      by show (1:ℝ) ≠ 0; norm_num⟩
    (le_of_eq (fixture_factor_corr_zero _ rfl))
    (le_of_eq (fixture_factor_corr_zero _ rfl))
    (le_of_eq (fixture_factor_corr_zero _ rfl))
    (le_of_eq (fixture_factor_corr_zero _ rfl))
    (le_of_eq (fixture_factor_corr_zero _ rfl))

end Codex
